import Mathlib

/-!
# Verification of the CVTS pre-processing pipeline (`src/vtra/preprocess/cvts.py`)

Shallow embedding of the pure data-transformation core of `cvts.py`:

* `reduse_dataset` — the Trace Reducer (stand-still removal + down-sampling),
* `find_routes` — the Map Matcher route construction (acceptance rules and
  return-journey suppression),
* `add_traffic_count_to_road_network` — the Traffic Aggregator,
* `create_single_route_file` — the Route Collector.

Coordinates, thresholds and timestamps are modelled as rationals (`ℚ`);
the Python source computes with IEEE floats, and every comparison embedded
here mirrors the source expression verbatim.  The geometric primitives the
source delegates to the external `shapely`/`rtree` libraries (segment
length, buffering, intersection length, bounding-box queries) are not code
of this repository; they enter the embedding as explicit function
parameters (`segLenF`, `candsF`) supplying, for each consecutive pair of
trace points, the segment length and the candidate edges returned by the
spatial index together with their lengths and the lengths of their
intersections with the buffered segment.  Everything the repository's own
code does with those numbers — thresholds, suppression, ordering,
timestamps, batch behaviour — is embedded directly.
-/

namespace Cvts

/-- A reduced trace row: (latitude, longitude, timestamp), the projection
`[row[2], row[3], row[8]]` performed by `reduse_dataset`. -/
abbrev Pt := ℚ × ℚ × ℚ

/-- `MIN_LAT_MOV` from `reduse_dataset` (0.001, i.e. 1/1000). -/
def MIN_LAT_MOV : ℚ := mkRat 1 1000

/-- `MIN_LON_MOV` from `reduse_dataset` (0.001). -/
def MIN_LON_MOV : ℚ := mkRat 1 1000

/-- `MIN_LAT_SAMPLE` from `reduse_dataset` (0.01). -/
def MIN_LAT_SAMPLE : ℚ := mkRat 1 100

/-- `MIN_LON_SAMPLE` from `reduse_dataset` (0.01). -/
def MIN_LON_SAMPLE : ℚ := mkRat 1 100

/-- One iteration of the loop body of `reduse_dataset`: `acc` is the
`data_moving` list built so far and `pc = (previous, current)` is the
current element of `zip(data[1:-1], data[2:])`.  The source appends
`current` when the movement test passes and either `data_moving` is empty
(`len(data_moving) == 0`) or the displacement from `data_moving[-1]`
passes the sampling test. -/
def reduse_step (acc : List Pt) (pc : Pt × Pt) : List Pt :=
  if |pc.1.1 - pc.2.1| ≥ MIN_LAT_MOV ∨ |pc.1.2.1 - pc.2.2.1| ≥ MIN_LON_MOV then
    match acc.getLast? with
    | none => acc ++ [pc.2]
    | some lastp =>
      if |lastp.1 - pc.2.1| ≥ MIN_LAT_SAMPLE ∨ |lastp.2.1 - pc.2.2.1| ≥ MIN_LON_SAMPLE then
        acc ++ [pc.2]
      else acc
  else acc

/-- The Trace Reducer `reduse_dataset` of one file's rows (after the column
projection): Python iterates `for previous, current in zip(data[1:-1], data[2:])`,
which pairs `(data[i+1], data[i+2])` for `0 ≤ i ≤ n-3`; `(data.drop 1).zip
(data.drop 2)` produces exactly those pairs (`zip` truncates to the shorter
list, matching the `[1:-1]` bound). -/
def reduse_dataset (data : List Pt) : List Pt :=
  ((data.drop 1).zip (data.drop 2)).foldl reduse_step []

/-- Modelled from the spec (§4.1, stage 1, with the source's `>=`
comparisons): the movement candidates of a trace — points whose absolute
latitude or longitude delta from the immediately preceding raw point
reaches the stillness threshold. -/
def movement_candidates (data : List Pt) : List Pt :=
  ((data.drop 1).zip (data.drop 2)).filterMap fun pc =>
    if |pc.1.1 - pc.2.1| ≥ MIN_LAT_MOV ∨ |pc.1.2.1 - pc.2.2.1| ≥ MIN_LON_MOV then
      some pc.2
    else none

/-- Modelled from the spec (§4.1, stage 2, with the source's `>=`
comparisons): down-sampling of the movement candidates against the last
emitted point (`none` while nothing has been emitted; the very first
candidate is emitted unconditionally). -/
def downsample : List Pt → Option Pt → List Pt
  | [], _ => []
  | p :: rest, none => p :: downsample rest (some p)
  | p :: rest, some lastp =>
    if |lastp.1 - p.1| ≥ MIN_LAT_SAMPLE ∨ |lastp.2.1 - p.2.1| ≥ MIN_LON_SAMPLE then
      p :: downsample rest (some p)
    else downsample rest (some lastp)

/-! ## Map Matcher (`find_routes`) -/

/-- `NUM_RETURN_JOURNEY` from `find_routes` (5). -/
def NUM_RETURN_JOURNEY : Nat := 5

/-- A candidate edge returned by the rtree query for one buffered trace
segment: its `g_id`, the length of its geometry
(`road_network_lut[edge_id].length`) and the length of its intersection
with the buffered segment
(`road_network_lut[edge_id].intersection(route_segment_buf).length`).
The two lengths are geometric values computed by the external shapely
library; the repository's own code only compares them. -/
structure Cand where
  gid : Int
  edgeLen : ℚ
  interLen : ℚ
deriving DecidableEq, Repr

/-- One trace segment as the matcher sees it: `route_segment.length`, the
timestamp zipped with this segment, and the candidate edges from the
spatial index, in iteration order. -/
structure Seg where
  segLen : ℚ
  timestamp : ℚ
  cands : List Cand
deriving DecidableEq, Repr

/-- The acceptance flag `add_route_id` of `find_routes`, exactly the
`if`/`elif` pair of the source: long edges whose intersection with the
buffer exceeds 80% of the segment length, else short edges (strictly
shorter than the segment) whose intersection exceeds 70% of their own
length. -/
def add_route_id (segLen : ℚ) (c : Cand) : Bool :=
  if c.interLen > segLen * mkRat 8 10 then true
  else if c.edgeLen < segLen ∧ c.interLen > c.edgeLen * mkRat 7 10 then true
  else false

/-- `[row[0] for row in route[-NUM_RETURN_JOURNEY:]]`: the edge ids of the
last `NUM_RETURN_JOURNEY` route entries (all of them when the route is
still shorter than the window). -/
def lastIds (route : List (Int × ℚ)) : List Int :=
  (route.drop (route.length - NUM_RETURN_JOURNEY)).map Prod.fst

/-- The body of the candidate loop of `find_routes`: append
`[edge_id, timestamp]` when `add_route_id` holds and `edge_id` is not
among the ids of the last `NUM_RETURN_JOURNEY` entries. -/
def process_cand (segLen timestamp : ℚ) (route : List (Int × ℚ)) (c : Cand) :
    List (Int × ℚ) :=
  if add_route_id segLen c then
    if c.gid ∈ lastIds route then route else route ++ [(c.gid, timestamp)]
  else route

/-- Processing of all rtree candidates of one segment, continuing the
route built so far. -/
def process_segment (route : List (Int × ℚ)) (s : Seg) : List (Int × ℚ) :=
  s.cands.foldl (process_cand s.segLen s.timestamp) route

/-- The route-building loop of `find_routes` over the consecutive segment
pairs of one trace, starting from the empty `route = []`. -/
def find_routes_route (segs : List Seg) : List (Int × ℚ) :=
  segs.foldl process_segment []

/-- The segment list of one trace:
`zip(list(geom.coords), list(geom.coords)[1:], timestamps)` pairs
`(coords[i], coords[i+1], timestamps[i])`; `segLenF`/`candsF` supply the
shapely segment length and the rtree candidate edges for the pair. -/
def mk_segs (segLenF : ℚ × ℚ → ℚ × ℚ → ℚ) (candsF : ℚ × ℚ → ℚ × ℚ → List Cand)
    (pts : List (ℚ × ℚ)) (ts : List ℚ) : List Seg :=
  ((pts.zip (pts.drop 1)).zip ts).map fun pct =>
    ⟨segLenF pct.1.1 pct.1.2, pct.2, candsF pct.1.1 pct.1.2⟩

/-- Route construction for one successfully parsed trace. -/
def find_routes_trace (segLenF : ℚ × ℚ → ℚ × ℚ → ℚ)
    (candsF : ℚ × ℚ → ℚ × ℚ → List Cand)
    (pts : List (ℚ × ℚ)) (ts : List ℚ) : List (Int × ℚ) :=
  find_routes_route (mk_segs segLenF candsF pts ts)

/-! ## Per-file parsing and the batch driver of `find_routes` -/

/-- One raw CSV cell as seen through `csv.reader(..., quoting=QUOTE_NONNUMERIC)`:
`some q` when the unquoted field parses as a float, `none` when the
conversion raises `ValueError` (or the field is a quoted string that later
fails as a coordinate). -/
abbrev RawCell := Option ℚ

/-- One raw CSV row. -/
abbrev RawRow := List RawCell

/-- Reading one row inside the `try:` of `find_routes`: the
`QUOTE_NONNUMERIC` reader raises if any field is non-numeric, and
`Point(row[0], row[1])` / `row[2]` raise if the row has fewer than three
fields. -/
def parse_row : RawRow → Option Pt
  | some a :: some b :: some c :: rest =>
    if rest.all Option.isSome then some (a, b, c) else none
  | _ => none

/-- Reading a whole trace file (`data = [row for row in reader]` plus the
coordinate/timestamp accesses): `none` when any row raises. -/
def parse_file (rows : List RawRow) : Option (List Pt) :=
  rows.mapM parse_row

/-- The per-file body of `find_routes`, output of the already-opened sink:
the sink is opened with `'wt'` *before* the `try:`, so when parsing raises,
or `LineString` raises because the trace has a single point, the `except`
branch leaves the sink empty — the file's route output is `[]` either way
(a 0-point trace yields an empty `LineString`, no segments, and hence also
`[]`). -/
def route_file (segLenF : ℚ × ℚ → ℚ × ℚ → ℚ)
    (candsF : ℚ × ℚ → ℚ × ℚ → List Cand) (rows : List RawRow) :
    List (Int × ℚ) :=
  match parse_file rows with
  | none => []
  | some pts =>
    if pts.length < 2 then []
    else
      find_routes_trace segLenF candsF
        (pts.map fun p => (p.1, p.2.1)) (pts.map fun p => p.2.2)

/-- The batch loop of `find_routes` over all trace files (filename,
rows), one output route file per input file, in walk order. -/
def find_routes_batch (segLenF : ℚ × ℚ → ℚ × ℚ → ℚ)
    (candsF : ℚ × ℚ → ℚ × ℚ → List Cand)
    (files : List (String × List RawRow)) :
    List (String × List (Int × ℚ)) :=
  files.map fun f => (f.1, route_file segLenF candsF f.2)

/-! ## Route Collector (`create_single_route_file`) -/

/-- Python `int(...)` on a float: truncation toward zero. -/
def int_trunc (q : ℚ) : Int :=
  if q < 0 then ⌈q⌉ else ⌊q⌋

/-- One record of the consolidated `routes.csv`. -/
structure RouteRecord where
  vehicle_id : String
  edge_path : List Int
  time_stamp : List Int
deriving DecidableEq, Repr

/-- `create_single_route_file`: one record per route file, with
`vehicle_id = file.replace('.csv', '')`, `edge_path = [int(elem[0]) ...]`
(edge ids are integral, so `int` is the identity on them) and
`time_stamp = [int(elem[1]) ...]`. -/
def create_single_route_file (routes : List (String × List (Int × ℚ))) :
    List RouteRecord :=
  routes.map fun f =>
    ⟨f.1.replace ".csv" "", f.2.map Prod.fst, f.2.map fun e => int_trunc e.2⟩

/-! ## Traffic Aggregator (`add_traffic_count_to_road_network`) -/

/-- Python dict assignment `d[k] = v`: replace in place when the key is
present, append otherwise (dicts preserve insertion order). -/
def dict_upsert (d : List (Int × Nat)) (k : Int) (v : Nat) : List (Int × Nat) :=
  if d.any fun p => p.1 = k then
    d.map fun p => if p.1 = k then (p.1, v) else p
  else d ++ [(k, v)]

/-- The seeding loop: `road_network_lut[g_id]['properties']['vehicle_co'] = 0`
for every road of the network (the network is modelled by its list of
`g_id`s; only the count attribute matters here). -/
def init_counts (net : List Int) : List (Int × Nat) :=
  net.foldl (fun d g => dict_upsert d g 0) []

/-- Dict lookup `d[k]`, as an `Option`. -/
def lookup? (d : List (Int × Nat)) (k : Int) : Option Nat :=
  (d.find? fun p => p.1 = k).map Prod.snd

/-- `road_network_lut[edge_id]['properties']['vehicle_co'] += 1`: a
missing key raises `KeyError`, modelled as `none`. -/
def bump (d : List (Int × Nat)) (k : Int) : Option (List (Int × Nat)) :=
  if d.any fun p => p.1 = k then
    some (d.map fun p => if p.1 = k then (p.1, p.2 + 1) else p)
  else none

/-- `add_traffic_count_to_road_network`: seed every network edge with a
zero count, then walk all route files and increment per route entry.  The
source has no `try:` around this loop, so a single missing edge id aborts
the whole aggregation — hence the `Option` result. -/
def add_traffic_count_to_road_network (net : List Int)
    (routes : List (List Int)) : Option (List (Int × Nat)) :=
  routes.foldlM (fun d r => r.foldlM bump d) (init_counts net)

/-! ## Predicates and concrete oracles used by the theorems -/

/-- Spacing invariant of a route: two entries with the same edge id are
always more than `NUM_RETURN_JOURNEY` positions apart, i.e. at least
`NUM_RETURN_JOURNEY` other entries lie strictly between them. -/
def Spaced (l : List (Int × ℚ)) : Prop :=
  ∀ (i j : Nat) (hi : i < l.length) (hj : j < l.length), i < j →
    (l[i].1 = l[j].1) → i + NUM_RETURN_JOURNEY < j

/-- A concrete geometry oracle for closed examples: every segment has
length 1. -/
def oracleLen : ℚ × ℚ → ℚ × ℚ → ℚ := fun _ _ => 1

/-- A concrete geometry oracle for closed examples: every segment sees the
single candidate edge 7, of length 1, intersecting the buffer over length
1 (so the long-edge rule accepts it). -/
def oracleCands : ℚ × ℚ → ℚ × ℚ → List Cand := fun _ _ => [⟨7, 1, 1⟩]

/-- A concrete seven-segment trace for closed examples: each segment has
one accepted candidate; edge 7 appears in the first and last segments
with five distinct edges in between. -/
def segsW : List Seg :=
  [⟨1, 0, [⟨7, 1, 1⟩]⟩, ⟨1, 1, [⟨1, 1, 1⟩]⟩, ⟨1, 2, [⟨2, 1, 1⟩]⟩,
   ⟨1, 3, [⟨3, 1, 1⟩]⟩, ⟨1, 4, [⟨4, 1, 1⟩]⟩, ⟨1, 5, [⟨5, 1, 1⟩]⟩,
   ⟨1, 6, [⟨7, 1, 1⟩]⟩]

/-- A concrete three-file batch for closed examples: files a and c parse
(two points each, both matching edge 7), file b has a non-numeric
latitude cell in its first row. -/
def C4files : List (String × List RawRow) :=
  [("a.csv", [[some 0, some 0, some 1], [some 1, some 0, some 2]]),
   ("b.csv", [[none, some 0, some 1], [some 1, some 0, some 2]]),
   ("c.csv", [[some 0, some 0, some 1], [some 1, some 0, some 2]])]

/-- The key list of a count dictionary. -/
def keys (d : List (Int × Nat)) : List Int := d.map Prod.fst

/-- The sum of all counts of a count dictionary. -/
def valsum (d : List (Int × Nat)) : Nat := (d.map Prod.snd).sum

/-- The total number of (route, entry) pairs of a route batch. -/
def total_entries (routes : List (List Int)) : Nat :=
  (routes.map List.length).sum

/-- The number of route entries referencing edge ids absent from the
network. -/
def dangling_entries (net : List Int) (routes : List (List Int)) : Nat :=
  (routes.map fun r => r.countP fun e => decide (e ∉ net)).sum

/-! ## Helper lemmas about the Trace Reducer -/

/-- The accumulator-passing loop of `reduse_dataset` equals the two-stage
decomposition: filter to movement candidates, then down-sample against the
last emitted point (`acc.getLast?`). -/
theorem foldl_reduse_step_eq (pairs : List (Pt × Pt)) :
    ∀ acc : List Pt,
      pairs.foldl reduse_step acc =
        acc ++ downsample
          (pairs.filterMap fun pc =>
            if |pc.1.1 - pc.2.1| ≥ MIN_LAT_MOV ∨ |pc.1.2.1 - pc.2.2.1| ≥ MIN_LON_MOV
            then some pc.2 else none)
          acc.getLast? := by
  induction pairs with
  | nil => intro acc; simp [downsample]
  | cons pc rest ih =>
    intro acc
    by_cases hmov :
        |pc.1.1 - pc.2.1| ≥ MIN_LAT_MOV ∨ |pc.1.2.1 - pc.2.2.1| ≥ MIN_LON_MOV
    · cases hlast : acc.getLast? with
      | none =>
        have hstep : reduse_step acc pc = acc ++ [pc.2] := by
          simp [reduse_step, hmov, hlast]
        rw [List.foldl_cons, hstep, ih, List.filterMap_cons]
        simp only [hmov, if_pos, List.getLast?_concat, downsample, List.append_assoc,
          List.singleton_append]
      | some lastp =>
        by_cases hsample :
            |lastp.1 - pc.2.1| ≥ MIN_LAT_SAMPLE ∨ |lastp.2.1 - pc.2.2.1| ≥ MIN_LON_SAMPLE
        · have hstep : reduse_step acc pc = acc ++ [pc.2] := by
            simp [reduse_step, hmov, hlast, hsample]
          rw [List.foldl_cons, hstep, ih, List.filterMap_cons]
          simp only [hmov, if_pos, List.getLast?_concat, downsample, hsample,
            List.append_assoc, List.singleton_append]
        · have hstep : reduse_step acc pc = acc := by
            simp [reduse_step, hmov, hlast, hsample]
          rw [List.foldl_cons, hstep, ih, List.filterMap_cons]
          simp only [hmov, if_pos, hlast, downsample, hsample, if_neg]
          simp [hsample]
    · have hstep : reduse_step acc pc = acc := by simp [reduse_step, hmov]
      rw [List.foldl_cons, hstep, ih, List.filterMap_cons]
      simp [hmov]

/-- `reduse_dataset` as the composition of the two spec stages. -/
theorem reduse_eq_two_stage (data : List Pt) :
    reduse_dataset data = downsample (movement_candidates data) none := by
  rw [reduse_dataset, movement_candidates, foldl_reduse_step_eq]
  rfl

/-- Down-sampling only drops elements: the output is a sublist of the
candidate list, whatever the last-emitted accumulator. -/
theorem downsample_sublist : ∀ (l : List Pt) (acc : Option Pt),
    (downsample l acc).Sublist l
  | [], _ => by simp [downsample]
  | p :: rest, none => by
    rw [downsample]
    exact (downsample_sublist rest (some p)).cons₂ p
  | p :: rest, some lastp => by
    rw [downsample]
    split
    · exact (downsample_sublist rest (some p)).cons₂ p
    · exact (downsample_sublist rest (some lastp)).cons p

/-- A `filterMap` over a zip that only ever emits the second component is
a sublist of the second list. -/
theorem filterMap_zip_snd_sublist {α β : Type} (f : α × β → Option β)
    (hf : ∀ pc, f pc = none ∨ f pc = some pc.2) :
    ∀ (l₁ : List α) (l₂ : List β), ((l₁.zip l₂).filterMap f).Sublist l₂
  | [], l₂ => by simp
  | a :: l₁, [] => by simp
  | a :: l₁, b :: l₂ => by
    rw [List.zip_cons_cons, List.filterMap_cons]
    rcases hf (a, b) with h | h
    · rw [h]
      exact (filterMap_zip_snd_sublist f hf l₁ l₂).cons b
    · rw [h]
      exact (filterMap_zip_snd_sublist f hf l₁ l₂).cons₂ b

/-- The movement candidates are a sublist of the rows from position 3 on. -/
theorem movement_candidates_sublist (data : List Pt) :
    (movement_candidates data).Sublist (data.drop 2) := by
  rw [movement_candidates]
  apply filterMap_zip_snd_sublist
  intro pc
  by_cases h : |pc.1.1 - pc.2.1| ≥ MIN_LAT_MOV ∨ |pc.1.2.1 - pc.2.2.1| ≥ MIN_LON_MOV
  · right; simp [h]
  · left; simp [h]

/-- The reduced trace is a sublist of the rows from position 3 on. -/
theorem reduse_sublist_drop2 (data : List Pt) :
    (reduse_dataset data).Sublist (data.drop 2) := by
  rw [reduse_eq_two_stage]
  exact (downsample_sublist _ _).trans (movement_candidates_sublist data)

/-- Traces of fewer than 3 rows reduce to the empty trace. -/
theorem reduse_short_nil (data : List Pt) (h : data.length < 3) :
    reduse_dataset data = [] := by
  have hdrop : data.drop 2 = [] := List.drop_eq_nil_of_le (by omega)
  have := reduse_sublist_drop2 data
  rw [hdrop] at this
  exact List.sublist_nil.mp this

/-! ## Claims about the Trace Reducer -/

unseal Rat.sub Rat.mul Rat.add in
/-- C5 (counterexample): the claim says a point is a movement candidate
only if its delta from the preceding raw point *exceeds* the stillness
threshold, but `reduse_dataset` uses `>=`: a trace whose third row moves
by exactly 0.001° in latitude (and not at all in longitude) still has that
row emitted, although neither delta strictly exceeds its threshold. -/
theorem C5_counterexample :
    reduse_dataset ([(0, 0, 0), (0, 0, 1), (mkRat 1 1000, 0, 2)] : List Pt) =
        [(mkRat 1 1000, 0, 2)] ∧
      ¬ |(0 : ℚ) - mkRat 1 1000| > MIN_LAT_MOV ∧ ¬ |(0 : ℚ) - 0| > MIN_LON_MOV :=
  ⟨by decide, by decide, by decide⟩

/-- C5 (amended: both thresholds are met at `≥`, not strictly exceeded):
the Trace Reducer is exactly the two-stage filter — keep a point as a
movement candidate iff its absolute latitude or longitude delta from the
immediately preceding raw point is at least the stillness threshold
(0.001°), then emit a candidate iff its displacement from the last
emitted point is at least the sampling threshold (0.01°), the very first
candidate being emitted unconditionally. -/
theorem C5_two_stage_filter (data : List Pt) :
    reduse_dataset data = downsample (movement_candidates data) none :=
  reduse_eq_two_stage data

unseal Rat.sub Rat.mul Rat.add in
/-- C6 (counterexample): the Trace Reducer is not idempotent — on this
five-row trace the reduction emits three rows, and reducing that output
again drops two more (the reduction never emits the first two rows of its
input). -/
theorem C6_counterexample :
    reduse_dataset
        (reduse_dataset ([(0, 0, 0), (0, 0, 1), (1, 0, 2), (2, 0, 3), (3, 0, 4)] : List Pt)) ≠
      reduse_dataset ([(0, 0, 0), (0, 0, 1), (1, 0, 2), (2, 0, 3), (3, 0, 4)] : List Pt) := by
  decide

/-- C6 (amended): a reduced trace is a fixed point of the Trace Reducer
exactly when it is empty; any non-empty output shrinks again when
re-reduced, because the reduction only ever emits rows from position 3
onward of its input. -/
theorem C6_fixed_point_iff_empty (data : List Pt) :
    reduse_dataset (reduse_dataset data) = reduse_dataset data ↔
      reduse_dataset data = [] := by
  constructor
  · intro h
    by_contra hne
    have hlen := (reduse_sublist_drop2 (reduse_dataset data)).length_le
    rw [h, List.length_drop] at hlen
    have hpos : 0 < (reduse_dataset data).length := List.length_pos.mpr hne
    omega
  · intro h
    rw [h]
    rfl

unseal Rat.sub Rat.mul Rat.add in
/-- C7 (counterexample): a trace of three identical rows has at least 3
points, yet its reduced trace is empty — stillness, not trace length,
decides emptiness. -/
theorem C7_counterexample :
    (([(0, 0, 0), (0, 0, 1), (0, 0, 2)] : List Pt)).length ≥ 3 ∧
      reduse_dataset ([(0, 0, 0), (0, 0, 1), (0, 0, 2)] : List Pt) = [] :=
  ⟨by decide, by decide⟩

/-- C7 (amended): every raw trace with fewer than 3 points reduces to the
empty trace (so a non-empty reduced trace implies at least 3 source
points); a trace with 3 or more points may nevertheless reduce to empty
when no row moves by at least the stillness threshold. -/
theorem C7_short_trace_reduces_to_empty (data : List Pt)
    (h : data.length < 3) : reduse_dataset data = [] :=
  reduse_short_nil data h

/-- C7 (witness). -/
theorem C7_witness :
    (([] : List Pt)).length < 3 ∧ reduse_dataset ([] : List Pt) = [] :=
  ⟨by decide, C7_short_trace_reduces_to_empty [] (by decide)⟩

/-- C10 (confirmed): the Trace Reducer's output is a sublist (an
order-preserving subsequence, rows unchanged) of the input rows from
position 3 onward — the first two rows never appear — and consequently
any input with fewer than 3 rows reduces to the empty output. -/
theorem C10_output_subsequence (data : List Pt) :
    (reduse_dataset data).Sublist (data.drop 2) ∧
      (data.length < 3 → reduse_dataset data = []) :=
  ⟨reduse_sublist_drop2 data, reduse_short_nil data⟩

/-- C10 (witness). -/
theorem C10_witness :
    (reduse_dataset ([(0, 0, 0)] : List Pt)).Sublist
        (([(0, 0, 0)] : List Pt).drop 2) ∧
      reduse_dataset ([(0, 0, 0)] : List Pt) = [] :=
  ⟨(C10_output_subsequence [(0, 0, 0)]).1,
   (C10_output_subsequence [(0, 0, 0)]).2 (by decide)⟩

/-! ## Helper lemmas about the Map Matcher -/

/-- Characterization of the entries present after processing a candidate
list: each is either an old entry or stems from an accepted candidate of
this segment, and then carries this segment's timestamp. -/
theorem foldl_process_cand_mem (L t : ℚ) (cs : List Cand) :
    ∀ (route : List (Int × ℚ)) (e : Int × ℚ),
      e ∈ cs.foldl (process_cand L t) route →
      e ∈ route ∨ ∃ c ∈ cs, c.gid = e.1 ∧ e.2 = t ∧ add_route_id L c = true := by
  induction cs with
  | nil => exact fun route e h => Or.inl h
  | cons c rest ih =>
    intro route e h
    rw [List.foldl_cons] at h
    rcases ih (process_cand L t route c) e h with h1 | h2
    · by_cases ha : add_route_id L c = true
      · by_cases hm : c.gid ∈ lastIds route
        · rw [process_cand, if_pos ha, if_pos hm] at h1
          exact Or.inl h1
        · rw [process_cand, if_pos ha, if_neg hm] at h1
          rcases List.mem_append.mp h1 with h3 | h3
          · exact Or.inl h3
          · have he : e = (c.gid, t) := List.mem_singleton.mp h3
            exact Or.inr ⟨c, List.mem_cons_self c rest, by rw [he]; exact ⟨rfl, rfl, ha⟩⟩
      · rw [process_cand, if_neg ha] at h1
        exact Or.inl h1
    · obtain ⟨c', hc', hp⟩ := h2
      exact Or.inr ⟨c', List.mem_cons_of_mem c hc', hp⟩

/-- The empty route is spaced. -/
theorem spaced_nil : Spaced [] := by
  intro i j hi
  simp at hi

/-- Appending an entry whose id is not among the ids of the last
`NUM_RETURN_JOURNEY` entries preserves the spacing invariant. -/
theorem spaced_append {r : List (Int × ℚ)} {e : Int × ℚ}
    (hs : Spaced r) (hnot : e.1 ∉ lastIds r) : Spaced (r ++ [e]) := by
  intro i j hi hj hij heq
  have hj' : j < r.length + 1 := by simpa using hj
  by_cases hjr : j < r.length
  · have hir : i < r.length := Nat.lt_trans hij hjr
    have gi : (r ++ [e])[i] = r[i] := List.getElem_append_left hir
    have gj : (r ++ [e])[j] = r[j] := List.getElem_append_left hjr
    rw [gi, gj] at heq
    exact hs i j hir hjr hij heq
  · have hjlen : j = r.length := by omega
    have hir : i < r.length := by omega
    have gi : (r ++ [e])[i] = r[i] := List.getElem_append_left hir
    have gj : (r ++ [e])[j] = e := by
      subst hjlen
      exact List.getElem_concat_length r e r.length rfl (by simp)
    rw [gi, gj] at heq
    by_contra hcon
    have hik : r.length - NUM_RETURN_JOURNEY ≤ i := by omega
    have hmem : r[i] ∈ r.drop (r.length - NUM_RETURN_JOURNEY) := by
      have hidx : i - (r.length - NUM_RETURN_JOURNEY) <
          (r.drop (r.length - NUM_RETURN_JOURNEY)).length := by
        rw [List.length_drop]
        omega
      have hval : (r.drop (r.length - NUM_RETURN_JOURNEY))[i - (r.length - NUM_RETURN_JOURNEY)]
          = r[i] := by
        rw [List.getElem_drop r]
        congr 1
        omega
      exact hval ▸ List.getElem_mem hidx
    have : e.1 ∈ lastIds r := by
      rw [lastIds, ← heq]
      exact List.mem_map_of_mem Prod.fst hmem
    exact hnot this

/-- Processing one candidate preserves the spacing invariant: the append
is guarded by the last-`NUM_RETURN_JOURNEY` membership test. -/
theorem spaced_process_cand (L t : ℚ) (c : Cand) {route : List (Int × ℚ)}
    (hs : Spaced route) : Spaced (process_cand L t route c) := by
  rw [process_cand]
  by_cases ha : add_route_id L c = true
  · by_cases hm : c.gid ∈ lastIds route
    · rw [if_pos ha, if_pos hm]; exact hs
    · rw [if_pos ha, if_neg hm]
      exact spaced_append hs hm
  · rw [if_neg ha]; exact hs

/-- Processing a whole candidate list preserves the spacing invariant. -/
theorem spaced_foldl_cands (L t : ℚ) (cs : List Cand) :
    ∀ {route : List (Int × ℚ)}, Spaced route →
      Spaced (cs.foldl (process_cand L t) route) := by
  induction cs with
  | nil => exact fun h => h
  | cons c rest ih =>
    intro route hs
    rw [List.foldl_cons]
    exact ih (spaced_process_cand L t c hs)

/-- Every route built by the matcher's segment loop is spaced. -/
theorem spaced_find_routes_route (segs : List Seg) :
    Spaced (find_routes_route segs) := by
  rw [find_routes_route]
  have main : ∀ (ss : List Seg) (r : List (Int × ℚ)), Spaced r →
      Spaced (ss.foldl process_segment r) := by
    intro ss
    induction ss with
    | nil => exact fun r h => h
    | cons s rest ih =>
      intro r hs
      rw [List.foldl_cons]
      exact ih _ (spaced_foldl_cands s.segLen s.timestamp s.cands hs)
  exact main segs [] spaced_nil

/-- Indexing a zip as an `Option`. -/
theorem getElem?_zip {α β : Type} : ∀ (l : List α) (l' : List β) (i : Nat),
    (l.zip l')[i]? = l[i]?.bind fun a => l'[i]?.map fun b => (a, b)
  | [], _, _ => by simp
  | a :: l, [], i => by
    rw [List.zip_nil_right]
    cases h : (a :: l)[i]? <;> simp
  | a :: l, b :: l', 0 => by simp
  | a :: l, b :: l', (i + 1) => by
    rw [List.zip_cons_cons, List.getElem?_cons_succ, List.getElem?_cons_succ,
      List.getElem?_cons_succ]
    exact getElem?_zip l l' i

/-! ## Claims about the Map Matcher -/

/-- C1 (confirmed): the matcher accepts a candidate edge `E` for a segment
`S` (with buffer `B`) iff the length of `E ∩ B` strictly exceeds 80% of
`S`'s length, or `E` is strictly shorter than `S` and the length of
`E ∩ B` strictly exceeds 70% of `E`'s own length; and every entry the
segment's processing adds to the route comes from a candidate satisfying
one of the two rules — an edge failing both is never appended. -/
theorem C1_acceptance_rules (L : ℚ) (c : Cand) (route : List (Int × ℚ))
    (s : Seg) (e : Int × ℚ) :
    (add_route_id L c = true ↔
      (c.interLen > L * mkRat 8 10 ∨
        (c.edgeLen < L ∧ c.interLen > c.edgeLen * mkRat 7 10))) ∧
    (e ∈ process_segment route s →
      e ∈ route ∨ ∃ c' ∈ s.cands, c'.gid = e.1 ∧
        (c'.interLen > s.segLen * mkRat 8 10 ∨
          (c'.edgeLen < s.segLen ∧ c'.interLen > c'.edgeLen * mkRat 7 10))) := by
  have hiff : ∀ (L' : ℚ) (c' : Cand), add_route_id L' c' = true ↔
      (c'.interLen > L' * mkRat 8 10 ∨
        (c'.edgeLen < L' ∧ c'.interLen > c'.edgeLen * mkRat 7 10)) := by
    intro L' c'
    by_cases h1 : c'.interLen > L' * mkRat 8 10 <;>
      by_cases h2 : c'.edgeLen < L' ∧ c'.interLen > c'.edgeLen * mkRat 7 10 <;>
        simp [add_route_id, h1, h2]
  refine ⟨hiff L c, fun hmem => ?_⟩
  rcases foldl_process_cand_mem s.segLen s.timestamp s.cands route e hmem with h | h
  · exact Or.inl h
  · obtain ⟨c', hc', hgid, _, hacc⟩ := h
    exact Or.inr ⟨c', hc', hgid, (hiff s.segLen c').mp hacc⟩

unseal Rat.sub Rat.mul Rat.add in
/-- C1 (witness). -/
theorem C1_witness :
    ((7, 5) ∈ process_segment [] ⟨1, 5, [⟨7, 1, 1⟩]⟩) ∧
      ((7, 5) ∈ ([] : List (Int × ℚ)) ∨ ∃ c' ∈ [(⟨7, 1, 1⟩ : Cand)], c'.gid = 7 ∧
        (c'.interLen > (1 : ℚ) * mkRat 8 10 ∨
          (c'.edgeLen < (1 : ℚ) ∧ c'.interLen > c'.edgeLen * mkRat 7 10))) :=
  ⟨by decide,
   (C1_acceptance_rules 1 ⟨7, 1, 1⟩ [] ⟨1, 5, [⟨7, 1, 1⟩]⟩ (7, 5)).2 (by decide)⟩

/-- C2 (confirmed): in every route the matcher produces, two occurrences
of the same edge id are more than `NUM_RETURN_JOURNEY` positions apart —
at least `NUM_RETURN_JOURNEY` (default 5) other entries lie strictly
between them — because an accepted edge is appended only when its id is
absent from the last `NUM_RETURN_JOURNEY` entries of the route built so
far. -/
theorem C2_return_journey_suppression (segs : List Seg) (i j : Nat)
    (e1 e2 : Int × ℚ) (hij : i < j)
    (h1 : (find_routes_route segs)[i]? = some e1)
    (h2 : (find_routes_route segs)[j]? = some e2)
    (he : e1.1 = e2.1) : i + NUM_RETURN_JOURNEY < j := by
  obtain ⟨hi, gi⟩ := List.getElem?_eq_some_iff.mp h1
  obtain ⟨hj, gj⟩ := List.getElem?_eq_some_iff.mp h2
  exact spaced_find_routes_route segs i j hi hj hij (by rw [gi, gj]; exact he)

unseal Rat.sub Rat.mul Rat.add in
/-- C2 (witness): a seven-segment trace that revisits edge 7 after five
distinct intervening edges. -/
theorem C2_witness :
    ((0 : Nat) < 6) ∧
      (find_routes_route segsW)[0]? = some (7, 0) ∧
      (find_routes_route segsW)[6]? = some (7, 6) ∧
      0 + NUM_RETURN_JOURNEY < 6 :=
  ⟨by decide, by decide, by decide,
   C2_return_journey_suppression segsW 0 6 (7, 0) (7, 6) (by decide)
     (by decide) (by decide) (by decide)⟩

unseal Rat.sub Rat.mul Rat.add in
/-- C3 (counterexample): a two-point trace whose points carry timestamps
10 and 20; the single matched segment records its edge with timestamp 10 —
the timestamp of the *previous* point (the start of the segment), not 20,
the claimed timestamp of the current point at the end of the segment. -/
theorem C3_counterexample :
    find_routes_trace oracleLen oracleCands [(0, 0), (1, 0)] [10, 20] =
        [(7, 10)] ∧ (10 : ℚ) ≠ 20 :=
  ⟨by decide, by decide⟩

/-- C3 (amended: every edge accepted for a segment is recorded with the
*previous* point's timestamp, the one at the start of the matched
segment): the i-th segment built from the trace pairs `(pts[i], pts[i+1])`
with timestamp `ts[i]`, and any entry appended while processing a segment
carries that segment's timestamp. -/
theorem C3_previous_point_timestamp (f : ℚ × ℚ → ℚ × ℚ → ℚ)
    (g : ℚ × ℚ → ℚ × ℚ → List Cand) (pts : List (ℚ × ℚ)) (ts : List ℚ)
    (i : Nat) (h0 : i < pts.length) (h1 : i + 1 < pts.length)
    (h2 : i < ts.length) (route : List (Int × ℚ)) (s : Seg) (e : Int × ℚ) :
    ((mk_segs f g pts ts)[i]? =
        some ⟨f pts[i] pts[i + 1], ts[i], g pts[i] pts[i + 1]⟩) ∧
      (e ∈ process_segment route s → e ∈ route ∨ e.2 = s.timestamp) := by
  constructor
  · rw [mk_segs, List.getElem?_map, getElem?_zip, getElem?_zip,
      List.getElem?_drop, List.getElem?_eq_getElem h0,
      List.getElem?_eq_getElem h2,
      List.getElem?_eq_getElem (show 1 + i < pts.length by omega)]
    simp only [Option.bind_some, Option.map_some, Option.bind, Option.map]
    have : pts[1 + i] = pts[i + 1] := by congr 1; omega
    rw [this]
  · intro hmem
    rcases foldl_process_cand_mem s.segLen s.timestamp s.cands route e hmem with h | h
    · exact Or.inl h
    · obtain ⟨c', _, _, hts, _⟩ := h
      exact Or.inr hts

unseal Rat.sub Rat.mul Rat.add in
/-- C3 (witness). -/
theorem C3_witness :
    ((mk_segs oracleLen oracleCands [(0, 0), (1, 0)] [10, 20])[0]? =
        some ⟨oracleLen (0, 0) (1, 0), 10, oracleCands (0, 0) (1, 0)⟩) ∧
      ((7, 10) ∈ process_segment [] ⟨1, 10, [⟨7, 1, 1⟩]⟩ →
        (7, 10) ∈ ([] : List (Int × ℚ)) ∨ (10 : ℚ) = 10) :=
  ⟨by
    have := (C3_previous_point_timestamp oracleLen oracleCands
      [(0, 0), (1, 0)] [10, 20] 0 (by decide) (by decide) (by decide)
      [] ⟨1, 10, [⟨7, 1, 1⟩]⟩ (7, 10)).1
    simpa using this,
   (C3_previous_point_timestamp oracleLen oracleCands
      [(0, 0), (1, 0)] [10, 20] 0 (by decide) (by decide) (by decide)
      [] ⟨1, 10, [⟨7, 1, 1⟩]⟩ (7, 10)).2⟩

/-! ## Helper lemmas about the Traffic Aggregator -/

/-- Membership in the key list is the `any` test used by the source's
dict operations. -/
theorem mem_keys_iff_any (d : List (Int × Nat)) (k : Int) :
    k ∈ keys d ↔ (d.any fun p => p.1 = k) = true := by
  rw [keys, List.any_eq_true]
  constructor
  · intro h
    obtain ⟨p, hp, hpk⟩ := List.mem_map.mp h
    exact ⟨p, hp, by simp [hpk]⟩
  · rintro ⟨p, hp, hpk⟩
    have hk : p.1 = k := by simpa using hpk
    exact hk ▸ List.mem_map_of_mem Prod.fst hp

/-- Upserting preserves or appends the key. -/
theorem mem_keys_upsert (d : List (Int × Nat)) (k g : Int) (v : Nat) :
    g ∈ keys (dict_upsert d k v) ↔ g ∈ keys d ∨ g = k := by
  rw [dict_upsert]
  by_cases h : (d.any fun p => p.1 = k) = true
  · rw [if_pos h]
    have hk : keys (d.map fun p => if p.1 = k then (p.1, v) else p) = keys d := by
      rw [keys, keys, List.map_map]
      apply List.map_congr_left
      intro p _
      by_cases hp : p.1 = k <;> simp [hp]
    rw [hk]
    constructor
    · exact Or.inl
    · rintro (hg | rfl)
      · exact hg
      · exact (mem_keys_iff_any d g).mpr h
  · rw [if_neg h]
    simp [keys]

/-- Seeding keeps exactly the keys of the accumulator plus the network
ids. -/
theorem mem_keys_init_foldl (net : List Int) :
    ∀ (d : List (Int × Nat)) (g : Int),
      g ∈ keys (net.foldl (fun d g => dict_upsert d g 0) d) ↔
        g ∈ keys d ∨ g ∈ net := by
  induction net with
  | nil => intro d g; simp
  | cons n rest ih =>
    intro d g
    rw [List.foldl_cons, ih, mem_keys_upsert]
    constructor
    · rintro ((h | h) | h)
      · exact Or.inl h
      · exact Or.inr (by rw [h]; exact List.mem_cons_self n rest)
      · exact Or.inr (List.mem_cons_of_mem n h)
    · rintro (h | h)
      · exact Or.inl (Or.inl h)
      · rcases List.mem_cons.mp h with h | h
        · exact Or.inl (Or.inr h)
        · exact Or.inr h

/-- Every key of the seeded dictionary is a network id and conversely. -/
theorem mem_keys_init (net : List Int) (g : Int) :
    g ∈ keys (init_counts net) ↔ g ∈ net := by
  rw [init_counts, mem_keys_init_foldl]
  simp [keys]

/-- Upserting a zero count keeps all counts zero. -/
theorem values_upsert_zero (d : List (Int × Nat)) (k : Int)
    (hd : ∀ p ∈ d, p.2 = 0) : ∀ p ∈ dict_upsert d k 0, p.2 = 0 := by
  rw [dict_upsert]
  by_cases h : (d.any fun p => p.1 = k) = true
  · rw [if_pos h]
    intro p hp
    obtain ⟨q, hq, hfq⟩ := List.mem_map.mp hp
    by_cases hqk : q.1 = k
    · rw [if_pos hqk] at hfq; rw [← hfq]
    · rw [if_neg hqk] at hfq; rw [← hfq]; exact hd q hq
  · rw [if_neg h]
    intro p hp
    rcases List.mem_append.mp hp with hp | hp
    · exact hd p hp
    · rw [List.mem_singleton.mp hp]

/-- All counts of the seeded dictionary are zero. -/
theorem values_init (net : List Int) :
    ∀ p ∈ init_counts net, p.2 = 0 := by
  rw [init_counts]
  have main : ∀ (ns : List Int) (d : List (Int × Nat)), (∀ p ∈ d, p.2 = 0) →
      ∀ p ∈ ns.foldl (fun d g => dict_upsert d g 0) d, p.2 = 0 := by
    intro ns
    induction ns with
    | nil => exact fun d hd => hd
    | cons n rest ih =>
      intro d hd
      rw [List.foldl_cons]
      exact ih _ (values_upsert_zero d n hd)
  exact main net [] (by simp)

/-- The seeded dictionary has pairwise distinct keys (it is a dict). -/
theorem nodup_keys_init (net : List Int) : (keys (init_counts net)).Nodup := by
  rw [init_counts]
  have upsert_nodup : ∀ (d : List (Int × Nat)) (k : Int) (v : Nat),
      (keys d).Nodup → (keys (dict_upsert d k v)).Nodup := by
    intro d k v hnd
    rw [dict_upsert]
    by_cases h : (d.any fun p => p.1 = k) = true
    · rw [if_pos h]
      have hk : keys (d.map fun p => if p.1 = k then (p.1, v) else p) = keys d := by
        rw [keys, keys, List.map_map]
        apply List.map_congr_left
        intro p _
        by_cases hp : p.1 = k <;> simp [hp]
      rw [hk]; exact hnd
    · rw [if_neg h]
      have hk : k ∉ keys d := fun hmem => h ((mem_keys_iff_any d k).mp hmem)
      rw [keys, List.map_append]
      rw [List.nodup_append]
      exact ⟨hnd, by simp, by simpa [keys, List.disjoint_singleton] using hk⟩
  have main : ∀ (ns : List Int) (d : List (Int × Nat)), (keys d).Nodup →
      (keys (ns.foldl (fun d g => dict_upsert d g 0) d)).Nodup := by
    intro ns
    induction ns with
    | nil => exact fun d hd => hd
    | cons n rest ih =>
      intro d hd
      rw [List.foldl_cons]
      exact ih _ (upsert_nodup d n 0 hd)
  exact main net [] (by simp [keys])

/-- Looking up any network id in the seeded dictionary yields count 0. -/
theorem lookup_init_zero (net : List Int) (g : Int) (hg : g ∈ net) :
    lookup? (init_counts net) g = some 0 := by
  have hmem : g ∈ keys (init_counts net) := (mem_keys_init net g).mpr hg
  obtain ⟨p, hp, hpg⟩ := List.mem_map.mp hmem
  have hfind : (init_counts net).find? (fun q => q.1 = g) |>.isSome := by
    rw [List.find?_isSome]
    exact ⟨p, hp, by simp [hpg]⟩
  obtain ⟨q, hq⟩ := Option.isSome_iff_exists.mp hfind
  have hqmem : q ∈ init_counts net := List.mem_of_find?_eq_some hq
  rw [lookup?, hq, Option.map_some']
  rw [values_init net q hqmem]

/-- A successful increment never changes the key list. -/
theorem keys_bump {d d' : List (Int × Nat)} {k : Int}
    (h : bump d k = some d') : keys d' = keys d := by
  rw [bump] at h
  by_cases hany : (d.any fun p => p.1 = k) = true
  · rw [if_pos hany] at h
    rw [← Option.some_inj.mp h, keys, keys, List.map_map]
    apply List.map_congr_left
    intro p _
    by_cases hp : p.1 = k <;> simp [hp]
  · rw [if_neg hany] at h
    exact absurd h (by simp)

/-- An increment fails exactly on a key absent from the dictionary —
the `KeyError` of the source. -/
theorem bump_none_iff (d : List (Int × Nat)) (k : Int) :
    bump d k = none ↔ k ∉ keys d := by
  rw [bump, mem_keys_iff_any]
  by_cases hany : (d.any fun p => p.1 = k) = true <;> simp [hany]

/-- Incrementing a present key (keys distinct) adds exactly one to the
total count. -/
theorem valsum_map_incr (k : Int) : ∀ (d : List (Int × Nat)),
    (keys d).Nodup → k ∈ keys d →
    valsum (d.map fun p => if p.1 = k then (p.1, p.2 + 1) else p) =
      valsum d + 1 := by
  intro d
  induction d with
  | nil => intro _ h; simp [keys] at h
  | cons p rest ih =>
    intro hnd hk
    have hnd' : (keys rest).Nodup ∧ p.1 ∉ keys rest := by
      rw [keys, List.map_cons, List.nodup_cons] at hnd
      exact ⟨hnd.2, hnd.1⟩
    by_cases hpk : p.1 = k
    · have hrest : ∀ q ∈ rest, q.1 ≠ k := by
        intro q hq hqk
        apply hnd'.2
        rw [keys, hpk, ← hqk]
        exact List.mem_map_of_mem Prod.fst hq
      have hmap : rest.map (fun p => if p.1 = k then (p.1, p.2 + 1) else p) = rest := by
        conv_rhs => rw [← List.map_id rest]
        apply List.map_congr_left
        intro q hq
        simp [hrest q hq]
      simp only [valsum, List.map_cons, if_pos hpk, hmap, List.sum_cons]
      omega
    · have hkrest : k ∈ keys rest := by
        rw [keys, List.map_cons] at hk
        rcases List.mem_cons.mp hk with h | h
        · exact absurd h.symm hpk
        · exact h
      have ihh := ih hnd'.1 hkrest
      simp only [valsum, List.map_cons, if_neg hpk, List.sum_cons] at ihh ⊢
      omega

/-- A successful increment adds exactly one to the total count. -/
theorem valsum_bump {d d' : List (Int × Nat)} {k : Int}
    (hnd : (keys d).Nodup) (h : bump d k = some d') :
    valsum d' = valsum d + 1 := by
  rw [bump] at h
  by_cases hany : (d.any fun p => p.1 = k) = true
  · rw [if_pos hany] at h
    rw [← Option.some_inj.mp h]
    exact valsum_map_incr k d hnd ((mem_keys_iff_any d k).mpr hany)
  · rw [if_neg hany] at h
    exact absurd h (by simp)

/-- Folding one route over `bump`: on success the keys are unchanged,
every entry of the route was a live key, and (keys distinct) the total
count grows by the route length. -/
theorem foldlM_bump_spec (r : List Int) :
    ∀ (d d' : List (Int × Nat)), r.foldlM bump d = some d' →
      keys d' = keys d ∧ (∀ e ∈ r, e ∈ keys d) ∧
        ((keys d).Nodup → valsum d' = valsum d + r.length) := by
  induction r with
  | nil =>
    intro d d' h
    rw [List.foldlM_nil] at h
    cases Option.some_inj.mp h
    exact ⟨rfl, by simp, fun _ => by simp⟩
  | cons e rest ih =>
    intro d d' h
    rw [List.foldlM_cons] at h
    cases hb : bump d e with
    | none => rw [hb] at h; exact absurd h (by simp)
    | some d1 =>
      rw [hb] at h
      simp only [Option.bind_eq_bind, Option.some_bind] at h
      obtain ⟨hkeys, hmem, hsum⟩ := ih d1 d' h
      have hk1 : keys d1 = keys d := keys_bump hb
      refine ⟨hkeys.trans hk1, ?_, ?_⟩
      · intro e' he'
        rcases List.mem_cons.mp he' with rfl | he'
        · by_contra hmem'
          rw [← bump_none_iff] at hmem'
          rw [hmem'] at hb
          exact absurd hb (by simp)
        · rw [← hk1]
          exact hmem e' he'
      · intro hnd
        have hnd1 : (keys d1).Nodup := by rw [hk1]; exact hnd
        rw [hsum hnd1, valsum_bump hnd hb, List.length_cons]
        omega

/-- Folding one route over `bump` fails exactly when the route references
a key absent from the dictionary. -/
theorem foldlM_bump_none (r : List Int) :
    ∀ (d : List (Int × Nat)), r.foldlM bump d = none ↔ ∃ e ∈ r, e ∉ keys d := by
  induction r with
  | nil => intro d; simp [List.foldlM_nil]
  | cons e rest ih =>
    intro d
    rw [List.foldlM_cons]
    cases hb : bump d e with
    | none =>
      have hne : e ∉ keys d := (bump_none_iff d e).mp hb
      simp only [Option.bind_eq_bind, Option.none_bind]
      constructor
      · intro _
        exact ⟨e, List.mem_cons_self e rest, hne⟩
      · intro _
        trivial
    | some d1 =>
      simp only [Option.bind_eq_bind, Option.some_bind]
      rw [ih d1, keys_bump hb]
      have he : e ∈ keys d := by
        by_contra hmem
        rw [← bump_none_iff] at hmem
        rw [hmem] at hb
        exact absurd hb (by simp)
      constructor
      · rintro ⟨e', he', hne⟩
        exact ⟨e', List.mem_cons_of_mem e he', hne⟩
      · rintro ⟨e', he', hne⟩
        rcases List.mem_cons.mp he' with rfl | he'
        · exact absurd he hne
        · exact ⟨e', he', hne⟩

/-- Folding a whole route batch: on success the keys are unchanged, every
entry of every route was a live key, and (keys distinct) the total count
grows by the total number of entries. -/
theorem foldlM_routes_spec (routes : List (List Int)) :
    ∀ (d d' : List (Int × Nat)),
      routes.foldlM (fun d r => r.foldlM bump d) d = some d' →
      keys d' = keys d ∧ (∀ r ∈ routes, ∀ e ∈ r, e ∈ keys d) ∧
        ((keys d).Nodup → valsum d' = valsum d + total_entries routes) := by
  induction routes with
  | nil =>
    intro d d' h
    rw [List.foldlM_nil] at h
    cases Option.some_inj.mp h
    exact ⟨rfl, by simp, fun _ => by simp [total_entries]⟩
  | cons r rest ih =>
    intro d d' h
    rw [List.foldlM_cons] at h
    cases hr : r.foldlM bump d with
    | none =>
      rw [hr] at h
      exact absurd h (by simp)
    | some d1 =>
      rw [hr] at h
      simp only [Option.bind_eq_bind, Option.some_bind] at h
      obtain ⟨hk1, hm1, hs1⟩ := foldlM_bump_spec r d d1 hr
      obtain ⟨hk2, hm2, hs2⟩ := ih d1 d' h
      refine ⟨hk2.trans hk1, ?_, ?_⟩
      · intro r' hr' e he
        rcases List.mem_cons.mp hr' with rfl | hr'
        · exact hm1 e he
        · rw [← hk1]
          exact hm2 r' hr' e he
      · intro hnd
        have hnd1 : (keys d1).Nodup := by rw [hk1]; exact hnd
        rw [hs2 hnd1, hs1 hnd]
        simp only [total_entries, List.map_cons, List.sum_cons]
        omega

/-- Folding a whole route batch fails exactly when some route references a
key absent from the dictionary. -/
theorem foldlM_routes_none (routes : List (List Int)) :
    ∀ (d : List (Int × Nat)),
      routes.foldlM (fun d r => r.foldlM bump d) d = none ↔
        ∃ r ∈ routes, ∃ e ∈ r, e ∉ keys d := by
  induction routes with
  | nil => intro d; simp [List.foldlM_nil]
  | cons r rest ih =>
    intro d
    rw [List.foldlM_cons]
    cases hr : r.foldlM bump d with
    | none =>
      simp only [Option.bind_eq_bind, Option.none_bind]
      constructor
      · intro _
        obtain ⟨e, he, hne⟩ := (foldlM_bump_none r d).mp hr
        exact ⟨r, List.mem_cons_self r rest, e, he, hne⟩
      · intro _
        trivial
    | some d1 =>
      simp only [Option.bind_eq_bind, Option.some_bind]
      rw [ih d1]
      obtain ⟨hkeys, hmem, _⟩ := foldlM_bump_spec r d d1 hr
      rw [hkeys]
      constructor
      · rintro ⟨r', hr', e, he, hne⟩
        exact ⟨r', List.mem_cons_of_mem r hr', e, he, hne⟩
      · rintro ⟨r', hr', e, he, hne⟩
        rcases List.mem_cons.mp hr' with rfl | hr'
        · exact absurd (hmem e he) hne
        · exact ⟨r', hr', e, he, hne⟩

/-- The seeded dictionary has total count zero. -/
theorem valsum_init (net : List Int) : valsum (init_counts net) = 0 := by
  rw [valsum]
  apply List.sum_eq_zero
  intro x hx
  obtain ⟨p, hp, rfl⟩ := List.mem_map.mp hx
  exact values_init net p hp

/-! ## Claims about the Traffic Aggregator -/

/-- C8 (confirmed): the aggregator seeds every network edge id with count
zero before processing any route; each (route, entry) pair increments one
count by exactly one with no per-route deduplication; and whenever
aggregation produces a result, every network edge has a count, no entry
was dangling, and the sum of all counts equals the total number of
(route, entry) pairs minus the number of entries referencing edges absent
from the network. -/
theorem C8_count_conservation (net : List Int) (routes : List (List Int))
    (counts : List (Int × Nat))
    (h : add_traffic_count_to_road_network net routes = some counts) :
    (∀ g ∈ net, lookup? (init_counts net) g = some 0) ∧
      (∀ g ∈ net, ∃ n, lookup? counts g = some n) ∧
      dangling_entries net routes = 0 ∧
      valsum counts = total_entries routes - dangling_entries net routes := by
  rw [add_traffic_count_to_road_network] at h
  obtain ⟨hkeys, hmem, hsum⟩ := foldlM_routes_spec routes (init_counts net) counts h
  have hdang : dangling_entries net routes = 0 := by
    rw [dangling_entries]
    apply List.sum_eq_zero
    intro x hx
    obtain ⟨r, hr, rfl⟩ := List.mem_map.mp hx
    rw [List.countP_eq_zero]
    intro e he
    have hnet : e ∈ net := (mem_keys_init net e).mp (hmem r hr e he)
    simp [hnet]
  refine ⟨fun g hg => lookup_init_zero net g hg, ?_, hdang, ?_⟩
  · intro g hg
    have hgk : g ∈ keys counts := by
      rw [hkeys]
      exact (mem_keys_init net g).mpr hg
    obtain ⟨p, hp, hpg⟩ := List.mem_map.mp hgk
    have hfind : (counts.find? fun q => q.1 = g).isSome :=
      List.find?_isSome.mpr ⟨p, hp, by simp [hpg]⟩
    obtain ⟨q, hq⟩ := Option.isSome_iff_exists.mp hfind
    exact ⟨q.2, by rw [lookup?, hq, Option.map_some']⟩
  · rw [hdang, Nat.sub_zero, hsum (nodup_keys_init net), valsum_init]
    simp

/-- C8 (witness): network {1, 2}, one route visiting 1, 2, 1 — counts
(1 ↦ 2, 2 ↦ 1), total 3 = 3 entries − 0 dangling. -/
theorem C8_witness :
    (add_traffic_count_to_road_network [1, 2] [[1, 2, 1]] =
        some [(1, 2), (2, 1)]) ∧
      valsum [(1, 2), (2, 1)] =
        total_entries [[1, 2, 1]] - dangling_entries [1, 2] [[1, 2, 1]] :=
  ⟨by decide,
   (C8_count_conservation [1, 2] [[1, 2, 1]] [(1, 2), (2, 1)] (by decide)).2.2.2⟩

/-- C9 (counterexample): network {1, 2} and three routes [1], [3], [2];
route 2 references the absent edge 3, and the aggregation produces no
count table at all (the `KeyError` propagates out of the whole loop) —
routes 1 and 3 do not get their counts, contradicting the claim that only
the offending route's contribution is lost. -/
theorem C9_counterexample :
    add_traffic_count_to_road_network [1, 2] [[1], [3], [2]] = none := by
  decide

/-- C9 (amended): an edge identifier referenced by a route but absent
from the network is fatal to the *entire* aggregation, not just to that
route's contribution: the aggregator yields a result iff no route
references an absent edge, and any dangling reference makes the whole
aggregation abort with an uncaught `KeyError`. -/
theorem C9_dangling_aborts_aggregation (net : List Int)
    (routes : List (List Int)) :
    add_traffic_count_to_road_network net routes = none ↔
      ∃ r ∈ routes, ∃ e ∈ r, e ∉ net := by
  rw [add_traffic_count_to_road_network, foldlM_routes_none]
  constructor
  · rintro ⟨r, hr, e, he, hne⟩
    exact ⟨r, hr, e, he, fun hmem => hne ((mem_keys_init net e).mpr hmem)⟩
  · rintro ⟨r, hr, e, he, hne⟩
    exact ⟨r, hr, e, he, fun hmem => hne ((mem_keys_init net e).mp hmem)⟩

/-! ## Claims about the batch driver and the Route Collector -/

/-- A file whose rows fail to parse, or whose trace has fewer than 2
points, yields the empty route output (the sink was opened before the
`try:`; the `except` leaves it empty). -/
theorem route_file_of_bad (segLenF : ℚ × ℚ → ℚ × ℚ → ℚ)
    (candsF : ℚ × ℚ → ℚ × ℚ → List Cand) (rows : List RawRow)
    (hbad : ∀ pts, parse_file rows = some pts → pts.length < 2) :
    route_file segLenF candsF rows = [] := by
  unfold route_file
  cases hp : parse_file rows with
  | none => rfl
  | some pts =>
    simp only []
    rw [if_pos (hbad pts hp)]

/-- The consolidated dataset is the per-file map of the collector over
the batch output. -/
theorem create_batch_eq_map (segLenF : ℚ × ℚ → ℚ × ℚ → ℚ)
    (candsF : ℚ × ℚ → ℚ × ℚ → List Cand)
    (files : List (String × List RawRow)) :
    create_single_route_file (find_routes_batch segLenF candsF files) =
      files.map fun f =>
        ⟨f.1.replace ".csv" "",
         (route_file segLenF candsF f.2).map Prod.fst,
         (route_file segLenF candsF f.2).map fun e => int_trunc e.2⟩ := by
  rw [create_single_route_file, find_routes_batch, List.map_map]
  rfl

unseal Rat.sub Rat.mul Rat.add in
/-- C4 (counterexample): a batch of three trace files in which file 2
("b.csv") has a non-numeric latitude cell.  Files 1 and 3 produce their
routes (edge 7), but the failed file is *not* omitted from the
consolidated dataset: it appears as the middle record, with empty
edge-path and timestamp lists. -/
theorem C4_counterexample :
    (create_single_route_file
        (find_routes_batch oracleLen oracleCands C4files)).map
          (fun rec => (rec.edge_path, rec.time_stamp)) =
      [([7], [1]), ([], []), ([7], [1])] := by
  decide

/-- C4 (amended: the failed file is not omitted — it contributes an empty
record): in a batch, a file whose rows cannot be parsed as numeric (or
whose trace has fewer than 2 points) still yields a record in the
consolidated dataset, with its vehicle id and *empty* edge and timestamp
sequences; the dataset has exactly one record per input file, and each
file's record depends on that file alone (a bad file never disturbs the
others). -/
theorem C4_failed_file_empty_record (segLenF : ℚ × ℚ → ℚ × ℚ → ℚ)
    (candsF : ℚ × ℚ → ℚ × ℚ → List Cand)
    (files : List (String × List RawRow)) (i : Nat) (hi : i < files.length)
    (hbad : ∀ pts, parse_file (files[i].2) = some pts → pts.length < 2) :
    (create_single_route_file (find_routes_batch segLenF candsF files)).length
        = files.length ∧
      (create_single_route_file (find_routes_batch segLenF candsF files))[i]? =
        some ⟨(files[i].1).replace ".csv" "", [], []⟩ ∧
      (create_single_route_file (find_routes_batch segLenF candsF files))[i]? =
        (create_single_route_file (find_routes_batch segLenF candsF
          [files[i]]))[0]? := by
  have hroute : route_file segLenF candsF (files[i].2) = [] :=
    route_file_of_bad segLenF candsF _ hbad
  refine ⟨?_, ?_, ?_⟩
  · rw [create_batch_eq_map, List.length_map]
  · rw [create_batch_eq_map, List.getElem?_map, List.getElem?_eq_getElem hi,
      Option.map_some', hroute]
    rfl
  · rw [create_batch_eq_map, create_batch_eq_map, List.getElem?_map,
      List.getElem?_map, List.getElem?_eq_getElem hi]
    rfl

unseal Rat.sub Rat.mul Rat.add in
/-- C4 (witness). -/
theorem C4_witness :
    (create_single_route_file
        (find_routes_batch oracleLen oracleCands C4files)).length =
        C4files.length ∧
      (create_single_route_file
          (find_routes_batch oracleLen oracleCands C4files))[1]? =
        some ⟨((C4files.get ⟨1, by decide⟩).1).replace ".csv" "", [], []⟩ :=
  ⟨(C4_failed_file_empty_record oracleLen oracleCands C4files 1 (by decide)
      (fun pts hp =>
        absurd ((show parse_file ((C4files.get ⟨1, by decide⟩).2) = none
          from by decide).symm.trans hp) (by simp))).1,
   (C4_failed_file_empty_record oracleLen oracleCands C4files 1 (by decide)
      (fun pts hp =>
        absurd ((show parse_file ((C4files.get ⟨1, by decide⟩).2) = none
          from by decide).symm.trans hp) (by simp))).2.1⟩

end Cvts
